import Mathlib

/-!
Verification of the model-selection and task-dispatch layer of the
github-issue-resolver repository.

The embedding below is a shallow translation of the TypeScript sources:

* `src/models/interfaces.ts`  — the data model (AIModel, ModelCapability,
  provider and task shapes);
* `src/models/ModelManager.ts` — the ModelManager class: provider
  registration, optimal-model selection, model invocation with usage
  accounting;
* `src/tasks/TaskManager.ts`  — the TaskManager class: task dispatch,
  exception normalization and the single fallback retry.

Modelling conventions: a JavaScript `Map` is an insertion-ordered
association list with unique keys (`mapSet` updates in place, `mapGet`
finds the first matching key); thrown exceptions are `Except.error`
carrying the message string; `async` methods become pure state-passing
functions; JS numbers used for costs become `Rat` (exact rationals);
`Array.prototype.sort`, which ECMAScript requires to be stable, is
modelled as a stable insertion sort over the same comparator.
-/

namespace GIR

/-- Capability strength enumeration, from `interfaces.ts` (ModelCapability.strength). -/
inductive Strength where
  | low
  | medium
  | high
  | excellent
deriving DecidableEq

/-- Ordinal value of a capability strength, the `strengthOrder` table inside
`ModelManager.getOptimalModel`. -/
def strengthOrder : Strength → Int
  | .excellent => 4
  | .high => 3
  | .medium => 2
  | .low => 1

/-- One capability tag of a model, from `interfaces.ts` (ModelCapability). The
`type` field is a string domain name, compared verbatim with the task type. -/
structure ModelCapability where
  type : String
  strength : Strength
deriving DecidableEq

/-- Feature-support record of a model, from `interfaces.ts` (AIModel.supports). -/
structure SupportsRecord where
  codeGeneration : Bool
  analysis : Bool
  reasoning : Bool
  vision : Bool
  functionCalling : Bool
deriving DecidableEq

/-- A registered model, from `interfaces.ts` (AIModel). Costs are exact
rationals in place of JS floating-point numbers. -/
structure AIModel where
  name : String
  provider : String
  capabilities : List ModelCapability
  costPerToken : Rat
  maxTokens : Nat
  supports : SupportsRecord
deriving DecidableEq

/-- A provider adapter, from `interfaces.ts` (AIProvider). Its `makeRequest`
is a pure function returning either the response text or a thrown error
message. -/
structure ProviderA where
  name : String
  models : List AIModel
  makeRequest : String → String → Except String String

/-- Per-model usage counters, the value type of `ModelManager.usageStats`. -/
structure UsageStat where
  calls : Nat
  tokens : Nat
  cost : Rat
deriving DecidableEq

/-- Insertion-ordered map update, the semantics of the JavaScript
`Map.prototype.set`: replace the value at the first matching key in place,
otherwise append a fresh entry at the end. -/
def mapSet {α : Type} : List (String × α) → String → α → List (String × α)
  | [], k, v => [(k, v)]
  | (k', v') :: rest, k, v =>
      if k' = k then (k, v) :: rest else (k', v') :: mapSet rest k v

/-- Insertion-ordered map lookup, the semantics of `Map.prototype.get`. -/
def mapGet {α : Type} : List (String × α) → String → Option α
  | [], _ => none
  | (k', v) :: rest, k => if k' = k then some v else mapGet rest k

/-- State of a `ModelManager` instance: its four private maps, from
`ModelManager.ts` lines 83 to 89. -/
structure MMState where
  providers : List (String × ProviderA)
  modelRegistry : List (String × AIModel)
  taskModelPreferences : List (String × String)
  usageStats : List (String × UsageStat)

/-- The default task preferences installed by
`ModelManager.initializeDefaultPreferences`, in insertion order. -/
def defaultTaskPreferences : List (String × String) :=
  [ ("analyze-issue", "claude-3-5-sonnet-20241022"),
    ("bug-fix", "gpt-4o"),
    ("feature-implementation", "claude-3-5-sonnet-20241022"),
    ("documentation-update", "gpt-4o-mini"),
    ("security-scan", "gpt-4o"),
    ("test-generation", "claude-3-haiku-20240307"),
    ("refactoring", "claude-3-5-sonnet-20241022"),
    ("triage-issues", "gpt-4o-mini") ]

/-- A freshly constructed `ModelManager`: empty maps except for the default
task preferences installed by the constructor. -/
def initialMM : MMState :=
  { providers := []
    modelRegistry := []
    taskModelPreferences := defaultTaskPreferences
    usageStats := [] }

/-- ASCII lowercase of one character, the effect of the JavaScript
`toLowerCase` on the provider names occurring in this system. -/
def lowerChar (c : Char) : Char :=
  if 65 ≤ c.toNat ∧ c.toNat ≤ 90 then Char.ofNat (c.toNat + 32) else c

/-- ASCII lowercase of a string, modelling `String.prototype.toLowerCase`
for the ASCII provider names this system uses. -/
def lowerString (s : String) : String := String.mk (s.data.map lowerChar)

/-- The method `ModelManager.addProvider`: stores the provider under its
lowercased name, then for every model of the provider stores the model in
the registry and sets a zeroed usage record. Note the TypeScript sets the
usage record unconditionally, overwriting any existing record. -/
def addProvider (s : MMState) (p : ProviderA) : MMState :=
  { s with
    providers := mapSet s.providers (lowerString p.name) p
    modelRegistry :=
      p.models.foldl (fun r m => mapSet r m.name m) s.modelRegistry
    usageStats :=
      p.models.foldl (fun u m => mapSet u m.name ⟨0, 0, 0⟩) s.usageStats }

/-- The optional requirements argument of `getOptimalModel`; absent fields
are `none`, mirroring `undefined`. -/
structure Requirements where
  needsVision : Option Bool := none
  needsFunctionCalling : Option Bool := none
  maxCost : Option Rat := none
  preferSpeed : Option Bool := none
deriving DecidableEq

/-- Lookup of the capability tag matching a task type, the
`a.capabilities.find((c) => c.type === taskType)` expression inside the sort
comparator of `getOptimalModel`. -/
def findCap (m : AIModel) (taskType : String) : Option ModelCapability :=
  m.capabilities.find? (fun c => c.type == taskType)

/-- The sort comparator of `getOptimalModel` (lines 153 to 176): when both
models carry a tag for the task type and the ordinal strengths differ, the
difference decides; otherwise fall through to the cost difference when
`preferSpeed` is set, else report a tie. The returned rational only matters
through its sign, as in JavaScript. -/
def modelCmp (taskType : String) (preferSpeed : Bool) (a b : AIModel) : Rat :=
  match findCap a taskType, findCap b taskType with
  | some ca, some cb =>
      let sa := strengthOrder ca.strength
      let sb := strengthOrder cb.strength
      if sa ≠ sb then ((sb - sa : Int) : Rat)
      else if preferSpeed then a.costPerToken - b.costPerToken else 0
  | _, _ => if preferSpeed then a.costPerToken - b.costPerToken else 0

/-- Stable insertion of an element into a list: the element passes every
earlier element it does not strictly precede under the comparator. -/
def insertLast {α : Type} (cmp : α → α → Rat) (x : α) : List α → List α
  | [] => [x]
  | y :: ys => if cmp x y < 0 then x :: y :: ys else y :: insertLast cmp x ys

/-- Stable sort by a JavaScript-style comparator, modelling
`Array.prototype.sort` (required stable by ECMAScript): a left fold of
stable insertions, which preserves the original order of elements the
comparator does not strictly distinguish. -/
def sortStable {α : Type} (cmp : α → α → Rat) (l : List α) : List α :=
  l.foldl (fun acc x => insertLast cmp x acc) []

/-- The filtering phase of `getOptimalModel` (lines 134 to 146): start from
all registry values in insertion order, then apply the vision,
function-calling and cost filters. A `needsVision` of `some false` is falsy
in the TypeScript and applies no filter. -/
def filterCandidates (s : MMState) (req : Requirements) : List AIModel :=
  let c0 := s.modelRegistry.map (fun kv => kv.2)
  let c1 := if req.needsVision = some true
    then c0.filter (fun m => m.supports.vision) else c0
  let c2 := if req.needsFunctionCalling = some true
    then c1.filter (fun m => m.supports.functionCalling) else c1
  match req.maxCost with
  | some c => c2.filter (fun m => m.costPerToken ≤ c)
  | none => c2

/-- The preference-override check of `getOptimalModel` (lines 148 to 151):
`preferred && candidates.find((m) => m.name === preferred)`. A preference
bound to the empty string is falsy and ignored. -/
def prefOverride (s : MMState) (taskType : String)
    (candidates : List AIModel) : Option String :=
  match mapGet s.taskModelPreferences taskType with
  | some p =>
      if p ≠ "" ∧ candidates.any (fun m => m.name == p) then some p else none
  | none => none

/-- The ranking phase of `getOptimalModel` (lines 153 to 178): sort the
candidates with the comparator and return the first name, falling back to
the literal string gpt-4o-mini when the list is empty or the first name is
the empty string (the `candidates[0]?.name || "gpt-4o-mini"` expression). -/
def rankedPick (taskType : String) (preferSpeed : Bool)
    (candidates : List AIModel) : String :=
  match (sortStable (modelCmp taskType preferSpeed) candidates).head? with
  | some m => if m.name = "" then "gpt-4o-mini" else m.name
  | none => "gpt-4o-mini"

/-- The method `ModelManager.getOptimalModel` (lines 125 to 179): filter,
try the task preference override, otherwise rank and pick. -/
def getOptimalModel (s : MMState) (taskType : String)
    (req : Requirements) : String :=
  let candidates := filterCandidates s req
  match prefOverride s taskType candidates with
  | some p => p
  | none => rankedPick taskType (req.preferSpeed == some true) candidates

/-- The outcome record returned by a successful `executeWithModel`. -/
structure ExecOutcome where
  response : String
  model : String
  tokensUsed : Nat
  cost : Rat
deriving DecidableEq

/-- Token estimation of `executeWithModel` (lines 207 to 208):
`Math.ceil(prompt.length / 4) + Math.ceil(response.length / 4)`. -/
def estimateTokens (prompt response : String) : Nat :=
  (prompt.length + 3) / 4 + (response.length + 3) / 4

/-- The method `ModelManager.executeWithModel` (lines 181 to 229): resolve
the model, resolve its provider, invoke the adapter, then increment the
usage record. The pair returns the thrown-or-returned outcome together with
the post-call manager state; every failing branch leaves the state
untouched, because the TypeScript mutates `usageStats` only after a
successful `makeRequest`. A missing usage record would make the non-null
assertion `this.usageStats.get(modelName)!` blow up at `stats.calls++`,
modelled as a thrown type error before any mutation. -/
def executeWithModel (s : MMState) (prompt modelName : String) :
    Except String ExecOutcome × MMState :=
  match mapGet s.modelRegistry modelName with
  | none => (.error ("Model " ++ modelName ++ " not found"), s)
  | some model =>
    match mapGet s.providers model.provider with
    | none => (.error ("Provider " ++ model.provider ++ " not configured"), s)
    | some provider =>
      match provider.makeRequest prompt modelName with
      | .error e => (.error e, s)
      | .ok response =>
        match mapGet s.usageStats modelName with
        | none => (.error "TypeError: usage record missing", s)
        | some st =>
          let tokensUsed := estimateTokens prompt response
          let cost := (tokensUsed : Rat) * model.costPerToken
          let st2 : UsageStat :=
            ⟨st.calls + 1, st.tokens + tokensUsed, st.cost + cost⟩
          (.ok { response := response, model := modelName,
                 tokensUsed := tokensUsed, cost := cost },
           { s with usageStats := mapSet s.usageStats modelName st2 })

/-- Result value of one task run, from `interfaces.ts` (TaskResult). Fields
this core never inspects are omitted; optional fields are `none` when the
TypeScript leaves them undefined. -/
structure TaskResult where
  success : Bool
  message : String
  modelUsed : Option String := none
  tokensUsed : Option Nat := none
  cost : Option Rat := none
deriving DecidableEq

/-- The parameter bag accepted by the TaskManager entry points; only the
fields the dispatch code reads are modelled, each optional. -/
structure TaskParams where
  model : Option String := none
  needsVision : Option Bool := none
  needsFunctionCalling : Option Bool := none
  maxCost : Option Rat := none
  preferSpeed : Option Bool := none
deriving DecidableEq

/-- Model selection configuration of the task context, from `interfaces.ts`
(ModelSelection); `taskSpecific` is an optional record, modelled as an
association list. -/
structure ModelSelection where
  primary : String
  fallback : Option String := none
  taskSpecific : List (String × String) := []

/-- The merged `additionalParams` object a task receives: the caller
parameters spread together with the optional `selectedModel` key. -/
structure AdditionalParams where
  params : TaskParams
  selectedModel : Option String

/-- The task context, from `interfaces.ts` (TaskContext), restricted to the
fields the dispatch layer reads or writes; the remaining fields are opaque
strings carried through unchanged. -/
structure TaskContext where
  repository : String
  owner : String
  githubToken : String
  workingDirectory : String
  issueNumber : Option Nat := none
  modelSelection : ModelSelection
  additionalParams : Option AdditionalParams := none

/-- A registered task, from `interfaces.ts` (ClaudeCodeTask). Its `execute`
is an arbitrary pure function returning either a thrown error message or a
task result, so theorems below quantify over every possible task body. -/
structure CCTask where
  name : String
  description : String := ""
  category : String
  priority : String := "medium"
  trigger : List String := []
  execute : TaskContext → Except String TaskResult

/-- State of a `TaskManager` instance: its task registry, its context and
its owned `ModelManager`, from `TaskManager.ts` lines 10 to 14. -/
structure TMState where
  tasks : List (String × CCTask)
  context : TaskContext
  mm : MMState

/-- Single-quote character, used to spell the task-not-found message. -/
def sqc : String := String.mk [Char.ofNat 39]

/-- The task-not-found message built at `TaskManager.ts` lines 66 and 97. -/
def taskNotFoundMsg (taskName : String) : String :=
  "Task " ++ sqc ++ taskName ++ sqc ++ " not found"

/-- The normalized single-failure message of both entry points. -/
def execFailedMsg (e : String) : String := "Task execution failed: " ++ e

/-- The terminal message after primary and fallback both threw; it quotes
the primary error. -/
def bothFailedMsg (e : String) : String :=
  "Task failed with both primary and fallback models: " ++ e

/-- The method `TaskManager.executeTask` (lines 58 to 89): missing task
names yield a failure result; the task runs with the parameters attached to
the context; any thrown error is caught and normalized into a failure
result, so the returned value is always `Except.ok`. -/
def executeTask (tm : TMState) (taskName : String)
    (params : Option TaskParams) : Except String TaskResult :=
  match mapGet tm.tasks taskName with
  | none => .ok { success := false, message := taskNotFoundMsg taskName }
  | some task =>
    match task.execute { tm.context with
        additionalParams := some ⟨params.getD {}, none⟩ } with
    | .ok r => .ok r
    | .error e =>
        .ok { success := false, message := execFailedMsg e }

/-- The context carrying `additionalParams: { ...params, selectedModel }`
built by `executeTaskWithOptimalModel` before each dispatch. -/
def ctxWithSel (ctx : TaskContext) (params : Option TaskParams)
    (sel : String) : TaskContext :=
  { ctx with additionalParams := some ⟨params.getD {}, some sel⟩ }

/-- Model resolution of `executeTaskWithOptimalModel` (lines 100 to 113):
an explicit truthy `params.model` wins, then a truthy per-task entry of
`modelSelection.taskSpecific`, then the optimal-model selection for the
task category under the requirements found in the parameters. -/
def selectModelFor (tm : TMState) (taskName : String) (task : CCTask)
    (params : Option TaskParams) : String :=
  let viaSelector := getOptimalModel tm.mm task.category
    { needsVision := params.bind (fun p => p.needsVision)
      needsFunctionCalling := params.bind (fun p => p.needsFunctionCalling)
      maxCost := params.bind (fun p => p.maxCost)
      preferSpeed := params.bind (fun p => p.preferSpeed) }
  let viaTaskSpecific :=
    match mapGet tm.context.modelSelection.taskSpecific taskName with
    | some m => if m = "" then viaSelector else m
    | none => viaSelector
  match params.bind (fun p => p.model) with
  | some m => if m = "" then viaTaskSpecific else m
  | none => viaTaskSpecific

/-- The method `TaskManager.executeTaskWithOptimalModel` (lines 91 to 157):
resolve the model, dispatch once; a thrown error triggers exactly one
retry with the configured fallback model when that fallback is truthy and
differs from the selected model; a second thrown error yields the terminal
both-models failure message quoting the primary error; without an
applicable fallback the error is normalized like `executeTask` does. A
returned failure result takes the `.ok` branch and is passed through
unchanged, with no fallback attempt. -/
def executeTaskWithOptimalModel (tm : TMState) (taskName : String)
    (params : Option TaskParams) : Except String TaskResult :=
  match mapGet tm.tasks taskName with
  | none => .ok { success := false, message := taskNotFoundMsg taskName }
  | some task =>
    let sel := selectModelFor tm taskName task params
    match task.execute (ctxWithSel tm.context params sel) with
    | .ok r => .ok r
    | .error e =>
      match tm.context.modelSelection.fallback with
      | some fb =>
        if fb ≠ "" ∧ sel ≠ fb then
          match task.execute (ctxWithSel tm.context params fb) with
          | .ok r2 => .ok r2
          | .error _ =>
              .ok { success := false, message := bothFailedMsg e }
        else .ok { success := false, message := execFailedMsg e }
      | none => .ok { success := false, message := execFailedMsg e }

/-- One step of selecting the best element under a comparator: keep the
current best unless the new element strictly precedes it. -/
def pick {α : Type} (cmp : α → α → Rat) (acc : Option α) (x : α) : Option α :=
  match acc with
  | none => some x
  | some b => if cmp x b < 0 then some x else some b

/-- The element a stable comparator sort brings to the front: a left fold of
`pick` over the list. -/
def foldBest {α : Type} (cmp : α → α → Rat) (l : List α) : Option α :=
  l.foldl (pick cmp) none

/-- Selection step driven by a boolean strict-precedence relation instead of
a comparator; used for the specification-side ranking definitions. -/
def pickB {α : Type} (lt : α → α → Bool) (acc : Option α) (x : α) : Option α :=
  match acc with
  | none => some x
  | some b => if lt x b then some x else some b

/-- First element of the list that no other element strictly precedes,
scanning left to right: the specification-side notion of the top-ranked
element. -/
def specBest {α : Type} (lt : α → α → Bool) (l : List α) : Option α :=
  l.foldl (pickB lt) none

theorem mapGet_mapSet {α : Type} (u : List (String × α)) (k k' : String)
    (v : α) :
    mapGet (mapSet u k v) k' = if k = k' then some v else mapGet u k' := by
  induction u with
  | nil => simp [mapSet, mapGet]
  | cons a u ih =>
      obtain ⟨ka, va⟩ := a
      by_cases hak : ka = k
      · subst hak
        by_cases hkk : ka = k'
        · subst hkk; simp [mapSet, mapGet]
        · simp [mapSet, mapGet, hkk]
      · by_cases hak' : ka = k'
        · subst hak'
          have : ¬ k = ka := fun h => hak h.symm
          simp [mapSet, mapGet, hak, this]
        · simp [mapSet, mapGet, hak, hak', ih]

theorem mapGet_mapSet_self {α : Type} (u : List (String × α)) (k : String)
    (v : α) : mapGet (mapSet u k v) k = some v := by
  simp [mapGet_mapSet]

theorem insertLast_head {α : Type} (cmp : α → α → Rat) (x : α)
    (l : List α) : (insertLast cmp x l).head? = pick cmp l.head? x := by
  cases l with
  | nil => simp [insertLast, pick]
  | cons y ys =>
      by_cases h : cmp x y < 0
      · simp [insertLast, pick, h]
      · simp [insertLast, pick, h]

theorem sortStable_head {α : Type} (cmp : α → α → Rat) (l : List α) :
    (sortStable cmp l).head? = foldBest cmp l := by
  suffices h : ∀ (l : List α) (acc : List α),
      ((l.foldl (fun a x => insertLast cmp x a) acc).head?)
        = l.foldl (pick cmp) acc.head? by
    simpa [sortStable, foldBest] using h l []
  intro l
  induction l with
  | nil => intro acc; rfl
  | cons x xs ih =>
      intro acc
      simp only [List.foldl_cons]
      rw [ih, insertLast_head]

theorem foldl_pick_mem {α : Type} (cmp : α → α → Rat) :
    ∀ (l : List α) (acc : Option α) (b : α),
      l.foldl (pick cmp) acc = some b → b ∈ l ∨ acc = some b := by
  intro l
  induction l with
  | nil => intro acc b h; exact Or.inr h
  | cons x xs ih =>
      intro acc b h
      simp only [List.foldl_cons] at h
      rcases ih _ _ h with hmem | hacc
      · exact Or.inl (List.mem_cons_of_mem _ hmem)
      · cases acc with
        | none =>
            simp [pick] at hacc
            exact Or.inl (hacc ▸ List.mem_cons_self x xs)
        | some b0 =>
            by_cases hc : cmp x b0 < 0
            · simp [pick, hc] at hacc
              exact Or.inl (hacc ▸ List.mem_cons_self x xs)
            · simp [pick, hc] at hacc
              exact Or.inr (congrArg some hacc)

theorem foldBest_mem {α : Type} (cmp : α → α → Rat) (l : List α) (b : α)
    (h : foldBest cmp l = some b) : b ∈ l := by
  rcases foldl_pick_mem cmp l none b h with hmem | hacc
  · exact hmem
  · simp at hacc

theorem foldBest_eq_specBest {α : Type} (cmp : α → α → Rat)
    (lt : α → α → Bool) (P : α → Prop)
    (H : ∀ x, P x → ∀ y, P y → ((cmp x y < 0) ↔ lt x y = true)) :
    ∀ (l : List α) (acc : Option α), (∀ x ∈ l, P x) →
      (∀ b, acc = some b → P b) →
      l.foldl (pick cmp) acc = l.foldl (pickB lt) acc := by
  intro l
  induction l with
  | nil => intro acc _ _; rfl
  | cons x xs ih =>
      intro acc hl hacc
      have hx : P x := hl x (List.mem_cons_self x xs)
      have hstep : pick cmp acc x = pickB lt acc x := by
        cases acc with
        | none => rfl
        | some b =>
            have hb : P b := hacc b rfl
            simp only [pick, pickB]
            exact if_congr (H x hx b hb) rfl rfl
      simp only [List.foldl_cons, hstep]
      refine ih (pickB lt acc x) (fun y hy => hl y (List.mem_cons_of_mem _ hy)) ?_
      intro b hb
      cases acc with
      | none =>
          simp [pickB] at hb
          exact hb ▸ hx
      | some b0 =>
          by_cases hc : lt x b0
          · simp [pickB, hc] at hb
            exact hb ▸ hx
          · simp [pickB, hc] at hb
            exact hb ▸ hacc b0 rfl

theorem foldl_setConst_get {β : Type} (v : β) :
    ∀ (l : List AIModel) (u0 : List (String × β)) (k : String),
      mapGet (l.foldl (fun u m => mapSet u m.name v) u0) k
        = if l.any (fun m => m.name == k) then some v else mapGet u0 k := by
  intro l
  induction l with
  | nil => intro u0 k; simp
  | cons m l ih =>
      intro u0 k
      simp only [List.foldl_cons, List.any_cons]
      rw [ih, mapGet_mapSet]
      by_cases h1 : l.any (fun m => m.name == k)
      · simp [h1]
      · by_cases h2 : m.name = k
        · simp [h1, h2]
        · have h2b : (m.name == k) = false := by
            simpa using h2
          simp [h1, h2, h2b]

theorem foldl_setWith_isSome {β : Type} (f : AIModel → β) :
    ∀ (l : List AIModel) (u0 : List (String × β)) (k : String),
      (mapGet (l.foldl (fun u m => mapSet u m.name (f m)) u0) k).isSome
        = (l.any (fun m => m.name == k) || (mapGet u0 k).isSome) := by
  intro l
  induction l with
  | nil => intro u0 k; simp
  | cons m l ih =>
      intro u0 k
      simp only [List.foldl_cons, List.any_cons]
      rw [ih, mapGet_mapSet]
      by_cases h1 : l.any (fun m => m.name == k)
      · simp [h1]
      · by_cases h2 : m.name = k
        · simp [h1, h2]
        · have h2b : (m.name == k) = false := by
            simpa using h2
          simp [h1, h2, h2b]

/-- Coverage invariant: every key present in the model registry has a usage
record. -/
def statsCover (s : MMState) : Prop :=
  ∀ k, (mapGet s.modelRegistry k).isSome = true →
    (mapGet s.usageStats k).isSome = true

theorem executeWithModel_not_found (s : MMState) (p n : String)
    (h : mapGet s.modelRegistry n = none) :
    executeWithModel s p n = (.error ("Model " ++ n ++ " not found"), s) := by
  simp [executeWithModel, h]

theorem executeWithModel_no_provider (s : MMState) (p n : String)
    (M : AIModel) (hM : mapGet s.modelRegistry n = some M)
    (hP : mapGet s.providers M.provider = none) :
    executeWithModel s p n
      = (.error ("Provider " ++ M.provider ++ " not configured"), s) := by
  simp [executeWithModel, hM, hP]

/-- The state produced by one successful model invocation: the usage record
of the named model incremented by one call, the given tokens and the given
cost, everything else untouched. -/
def bumpStats (s : MMState) (n : String) (st0 : UsageStat) (t : Nat)
    (c : Rat) : MMState :=
  { s with usageStats := mapSet s.usageStats n ⟨st0.calls + 1, st0.tokens + t, st0.cost + c⟩ }

theorem executeWithModel_ok_spec (s : MMState) (p n : String)
    (out : ExecOutcome) (h : (executeWithModel s p n).1 = .ok out) :
    ∃ M P r st0,
      mapGet s.modelRegistry n = some M ∧
      mapGet s.providers M.provider = some P ∧
      P.makeRequest p n = .ok r ∧
      mapGet s.usageStats n = some st0 ∧
      out = ⟨r, n, estimateTokens p r,
             (estimateTokens p r : Rat) * M.costPerToken⟩ ∧
      (executeWithModel s p n).2
        = bumpStats s n st0 out.tokensUsed out.cost := by
  cases hM : mapGet s.modelRegistry n with
  | none => exfalso; simp [executeWithModel, hM] at h
  | some M =>
    cases hP : mapGet s.providers M.provider with
    | none => exfalso; simp [executeWithModel, hM, hP] at h
    | some P =>
      cases hr : P.makeRequest p n with
      | error e => exfalso; simp [executeWithModel, hM, hP, hr] at h
      | ok r =>
        cases hst : mapGet s.usageStats n with
        | none => exfalso; simp [executeWithModel, hM, hP, hr, hst] at h
        | some st0 =>
          have hout : out = ⟨r, n, estimateTokens p r,
              (estimateTokens p r : Rat) * M.costPerToken⟩ := by
            simp [executeWithModel, hM, hP, hr, hst] at h
            exact h.symm
          refine ⟨M, P, r, st0, rfl, hP, hr, rfl, hout, ?_⟩
          rw [hout]
          simp [executeWithModel, hM, hP, hr, hst, bumpStats]

theorem executeWithModel_error_state (s : MMState) (p n e : String)
    (h : (executeWithModel s p n).1 = .error e) :
    (executeWithModel s p n).2 = s := by
  cases hM : mapGet s.modelRegistry n with
  | none => simp [executeWithModel, hM]
  | some M =>
    cases hP : mapGet s.providers M.provider with
    | none => simp [executeWithModel, hM, hP]
    | some P =>
      cases hr : P.makeRequest p n with
      | error e2 => simp [executeWithModel, hM, hP, hr]
      | ok r =>
        cases hst : mapGet s.usageStats n with
        | none => simp [executeWithModel, hM, hP, hr, hst]
        | some st0 => exfalso; simp [executeWithModel, hM, hP, hr, hst] at h

/-- Ordinal score of the capability tag a model carries for a task type,
zero when the tag is absent; specification-side notion. -/
def capScore (t : String) (m : AIModel) : Int :=
  match findCap m t with
  | some c => strengthOrder c.strength
  | none => 0

/-- Specification-side strict ranking relation between two tagged models:
strictly higher capability score wins; on equal scores and `preferSpeed`,
strictly lower cost per token wins; otherwise no strict precedence. -/
def specLt (t : String) (ps : Bool) (a b : AIModel) : Bool :=
  if capScore t b < capScore t a then true
  else if capScore t a = capScore t b ∧ ps = true ∧
      a.costPerToken < b.costPerToken then true
  else false

theorem modelCmp_lt_iff_specLt (t : String) (ps : Bool) (a b : AIModel)
    (ha : (findCap a t).isSome = true) (hb : (findCap b t).isSome = true) :
    (modelCmp t ps a b < 0) ↔ specLt t ps a b = true := by
  obtain ⟨ca, hca⟩ := Option.isSome_iff_exists.mp ha
  obtain ⟨cb, hcb⟩ := Option.isSome_iff_exists.mp hb
  have hsa : capScore t a = strengthOrder ca.strength := by
    simp [capScore, hca]
  have hsb : capScore t b = strengthOrder cb.strength := by
    simp [capScore, hcb]
  rcases eq_or_ne (strengthOrder ca.strength) (strengthOrder cb.strength)
      with heq | hne
  · have hnotlt : ¬ capScore t b < capScore t a := by
      rw [hsa, hsb, heq]; exact lt_irrefl _
    cases ps with
    | false =>
        simp [modelCmp, hca, hcb, heq, specLt, hnotlt]
    | true =>
        simp only [modelCmp, hca, hcb, heq, ne_eq, not_true_eq_false,
          if_neg, ite_true, if_false, specLt, hnotlt]
        simp [sub_neg, hsa, hsb, heq]
  · have hcases : strengthOrder cb.strength < strengthOrder ca.strength ∨
        strengthOrder ca.strength < strengthOrder cb.strength :=
      lt_or_gt_of_ne (Ne.symm hne)
    rcases hcases with hlt | hgt
    · have h1 : capScore t b < capScore t a := by rw [hsa, hsb]; exact hlt
      have h2 : ((strengthOrder cb.strength - strengthOrder ca.strength : Int)
          : Rat) < 0 := by
        rw [Int.cast_lt_zero, sub_neg]; exact hlt
      simp [modelCmp, hca, hcb, hne, specLt, h1, h2]
      exact hlt
    · have h1 : ¬ capScore t b < capScore t a := by
        rw [hsa, hsb]; exact not_lt_of_gt hgt
      have h1b : ¬ capScore t a = capScore t b := by
        rw [hsa, hsb]; exact hne
      have h2 : ¬ ((strengthOrder cb.strength - strengthOrder ca.strength
          : Int) : Rat) < 0 := by
        rw [Int.cast_lt_zero, sub_neg]; exact not_lt_of_gt hgt
      simp [modelCmp, hca, hcb, hne, specLt, h1, h1b, h2]
      exact le_of_lt hgt

/-- Specification-side ranked selection, following the amended claim: the
first candidate in registry order that no other candidate strictly
precedes under `specLt` is selected; an empty candidate list (or an
empty-string winner name, kept for parity with the code quirk) yields the
default name. -/
def specRankedPick (t : String) (ps : Bool) (cands : List AIModel) : String :=
  match specBest (specLt t ps) cands with
  | some m => if m.name = "" then "gpt-4o-mini" else m.name
  | none => "gpt-4o-mini"

theorem rankedPick_eq_spec (t : String) (ps : Bool) (cands : List AIModel)
    (hAll : ∀ m ∈ cands, (findCap m t).isSome = true) :
    rankedPick t ps cands = specRankedPick t ps cands := by
  have H : ∀ x, x ∈ cands → ∀ y, y ∈ cands →
      ((modelCmp t ps x y < 0) ↔ specLt t ps x y = true) :=
    fun x hx y hy => modelCmp_lt_iff_specLt t ps x y (hAll x hx) (hAll y hy)
  have hfold : foldBest (modelCmp t ps) cands
      = specBest (specLt t ps) cands := by
    unfold foldBest specBest
    exact foldBest_eq_specBest (modelCmp t ps) (specLt t ps) (fun m => m ∈ cands)
      H cands none (fun x hx => hx) (fun b hb => by cases hb)
  unfold rankedPick specRankedPick
  rw [sortStable_head, hfold]

theorem statsCover_addProvider (s : MMState) (p : ProviderA)
    (h : statsCover s) : statsCover (addProvider s p) := by
  intro k hk
  have hreg : (mapGet ((addProvider s p).modelRegistry) k).isSome
      = (p.models.any (fun m => m.name == k) ||
         (mapGet s.modelRegistry k).isSome) := by
    simpa [addProvider] using
      foldl_setWith_isSome (fun m => m) p.models s.modelRegistry k
  have hst : (mapGet ((addProvider s p).usageStats) k).isSome
      = (p.models.any (fun m => m.name == k) ||
         (mapGet s.usageStats k).isSome) := by
    simpa [addProvider] using
      foldl_setWith_isSome (fun _ => (⟨0, 0, 0⟩ : UsageStat))
        p.models s.usageStats k
  rw [hst]
  rw [hreg] at hk
  rcases Bool.or_eq_true_iff.mp hk with hany | hold
  · simp [hany]
  · simp [h k hold]

theorem statsCover_executeWithModel (s : MMState) (p n : String)
    (h : statsCover s) : statsCover (executeWithModel s p n).2 := by
  cases hM : mapGet s.modelRegistry n with
  | none => simpa [executeWithModel, hM] using h
  | some M =>
    cases hP : mapGet s.providers M.provider with
    | none => simpa [executeWithModel, hM, hP] using h
    | some P =>
      cases hr : P.makeRequest p n with
      | error e => simpa [executeWithModel, hM, hP, hr] using h
      | ok r =>
        cases hst : mapGet s.usageStats n with
        | none => simpa [executeWithModel, hM, hP, hr, hst] using h
        | some st0 =>
          intro k hk
          simp only [executeWithModel, hM, hP, hr, hst] at hk ⊢
          rw [mapGet_mapSet]
          by_cases hnk : n = k
          · simp [hnk]
          · simp only [if_neg hnk]
            exact h k hk

/-- The response text a provider adapter produces for a prompt, with a
placeholder for the failing case; equal to the actual response whenever the
adapter call succeeds. -/
def respOf (P : ProviderA) (n p : String) : String :=
  match P.makeRequest p n with
  | .ok r => r
  | .error _ => ""

/-- Success test on an exception-or-value result. -/
def isOkE {ε α : Type} : Except ε α → Bool
  | .ok _ => true
  | .error _ => false

/-- A sequence of `executeWithModel` calls against one model, threading the
manager state; the harness for the usage-accumulation property. -/
def runSeq (s : MMState) (n : String) : List String → MMState
  | [] => s
  | p :: ps => runSeq (executeWithModel s p n).2 n ps

theorem runSeq_stats (n : String) (M : AIModel) (P : ProviderA) :
    ∀ (ps : List String) (s : MMState) (st0 : UsageStat),
      mapGet s.modelRegistry n = some M →
      mapGet s.providers M.provider = some P →
      mapGet s.usageStats n = some st0 →
      (∀ p ∈ ps, isOkE (P.makeRequest p n) = true) →
      mapGet (runSeq s n ps).usageStats n =
        some ⟨st0.calls + ps.length,
              st0.tokens
                + (ps.map (fun p => estimateTokens p (respOf P n p))).sum,
              st0.cost
                + (ps.map (fun p =>
                    (estimateTokens p (respOf P n p) : Rat)
                      * M.costPerToken)).sum⟩ := by
  intro ps
  induction ps with
  | nil =>
      intro s st0 hM hP hst _
      simp [runSeq, hst]
  | cons p ps ih =>
      intro s st0 hM hP hst hok
      have hokp : isOkE (P.makeRequest p n) = true :=
        hok p (List.mem_cons_self p ps)
      cases hr : P.makeRequest p n with
      | error e => rw [hr] at hokp; simp [isOkE] at hokp
      | ok r =>
        have hresp : respOf P n p = r := by simp [respOf, hr]
        have hstep : (executeWithModel s p n).2
            = bumpStats s n st0 (estimateTokens p r)
                ((estimateTokens p r : Rat) * M.costPerToken) := by
          simp [executeWithModel, hM, hP, hr, hst, bumpStats]
        have hM1 : mapGet ((executeWithModel s p n).2).modelRegistry n
            = some M := by rw [hstep]; simpa [bumpStats] using hM
        have hP1 : mapGet ((executeWithModel s p n).2).providers M.provider
            = some P := by rw [hstep]; simpa [bumpStats] using hP
        have hst1 : mapGet ((executeWithModel s p n).2).usageStats n
            = some ⟨st0.calls + 1,
                st0.tokens + estimateTokens p r,
                st0.cost + (estimateTokens p r : Rat) * M.costPerToken⟩ := by
          rw [hstep]
          simp [bumpStats, mapGet_mapSet_self]
        have := ih ((executeWithModel s p n).2) _ hM1 hP1 hst1
          (fun q hq => hok q (List.mem_cons_of_mem _ hq))
        rw [runSeq]
        rw [this]
        congr 1
        simp [hresp]
        refine ⟨by omega, by omega, by ring⟩

theorem filterCandidates_cost (s : MMState) (req : Requirements)
    (m : AIModel) (c : Rat) (hm : m ∈ filterCandidates s req)
    (hc : req.maxCost = some c) : m.costPerToken ≤ c := by
  simp only [filterCandidates, hc] at hm
  simpa using (List.mem_filter.mp hm).2

theorem filterCandidates_vision (s : MMState) (req : Requirements)
    (m : AIModel) (hm : m ∈ filterCandidates s req)
    (hv : req.needsVision = some true) : m.supports.vision = true := by
  by_cases hfc : req.needsFunctionCalling = some true <;>
    cases hmc : req.maxCost <;>
      simp only [filterCandidates, hv, hfc, hmc, eq_self_iff_true, if_true,
        if_false, ite_true, ite_false, List.mem_filter] at hm <;>
      simp_all

theorem prefOverride_props (s : MMState) (t : String)
    (cands : List AIModel) (p : String)
    (h : prefOverride s t cands = some p) :
    p ≠ "" ∧ ∃ m ∈ cands, m.name = p := by
  unfold prefOverride at h
  cases hg : mapGet s.taskModelPreferences t with
  | none => rw [hg] at h; cases h
  | some q =>
      simp only [hg] at h
      by_cases hcond : q ≠ "" ∧ cands.any (fun m => m.name == q) = true
      · rw [if_pos hcond] at h
        cases h
        obtain ⟨m, hm, hname⟩ := List.any_eq_true.mp hcond.2
        exact ⟨hcond.1, m, hm, by simpa using hname⟩
      · rw [if_neg hcond] at h; cases h

theorem prefOverride_empty (s : MMState) (t : String) :
    prefOverride s t [] = none := by
  unfold prefOverride
  cases mapGet s.taskModelPreferences t <;> simp

/-- Claim C3 (amended). Every return of `getOptimalModel` is either the name
of a post-filter candidate — which then satisfies the vision constraint
when `needsVision` is set and the cost bound when `maxCost` is set — or the
literal default string gpt-4o-mini produced when the filtered candidate
set is empty (or the winner has an empty name); in the default case no
constraint is guaranteed about a registered model that happens to bear the
default name. -/
theorem selectorRespectsFilters (s : MMState) (t : String)
    (req : Requirements) :
    (∃ m, m ∈ filterCandidates s req ∧ getOptimalModel s t req = m.name ∧
      (req.needsVision = some true → m.supports.vision = true) ∧
      (∀ c, req.maxCost = some c → m.costPerToken ≤ c)) ∨
    getOptimalModel s t req = "gpt-4o-mini" := by
  cases hpo : prefOverride s t (filterCandidates s req) with
  | some p =>
      obtain ⟨-, m, hm, hname⟩ := prefOverride_props s t _ p hpo
      left
      refine ⟨m, hm, ?_, fun hv => filterCandidates_vision s req m hm hv,
        fun c hc => filterCandidates_cost s req m c hm hc⟩
      simp [getOptimalModel, hpo, hname]
  | none =>
      have hred : getOptimalModel s t req
          = rankedPick t (req.preferSpeed == some true)
              (filterCandidates s req) := by
        simp [getOptimalModel, hpo]
      cases hh : (sortStable (modelCmp t (req.preferSpeed == some true))
          (filterCandidates s req)).head? with
      | none =>
          right
          rw [hred]
          unfold rankedPick
          rw [hh]
      | some m =>
          have hmem : m ∈ filterCandidates s req := by
            refine foldBest_mem (modelCmp t (req.preferSpeed == some true))
              (filterCandidates s req) m ?_
            rw [← sortStable_head]; exact hh
          by_cases hname : m.name = ""
          · right
            rw [hred]
            unfold rankedPick
            rw [hh]
            simp [hname]
          · left
            refine ⟨m, hmem, ?_,
              fun hv => filterCandidates_vision s req m hmem hv,
              fun c hc => filterCandidates_cost s req m c hmem hc⟩
            rw [hred]
            unfold rankedPick
            rw [hh]
            simp [hname]

/-- A simple model record used in concrete scenarios. -/
def mkModel (n prov : String) (caps : List ModelCapability) (cost : Rat)
    (vis : Bool) : AIModel :=
  ⟨n, prov, caps, cost, 4096, ⟨true, true, true, vis, true⟩⟩

/-- A provider adapter that always answers the fixed string done. -/
def okAdapter : String → String → Except String String :=
  fun _ _ => .ok "done"

/-- A registered model that carries the same name as the hardcoded default,
with a high cost and no vision support. -/
def c3Model : AIModel := mkModel "gpt-4o-mini" "openai" [] 10 false

/-- A manager state holding only `c3Model`. -/
def c3S : MMState := addProvider initialMM ⟨"OpenAI", [c3Model], okAdapter⟩

/-- Claim C3, counterexample to the literal statement: with a cost bound of
one, `getOptimalModel` still returns the string gpt-4o-mini, which is the
name of a registered model whose cost per token is ten — the empty-filter
default collides with a registered name that violates the bound. -/
theorem c3_counterexample :
    getOptimalModel c3S "analysis" { maxCost := some 1 } = "gpt-4o-mini" ∧
    mapGet c3S.modelRegistry "gpt-4o-mini" = some c3Model ∧
    (1 : Rat) < c3Model.costPerToken := by decide

/-- Witness for `selectorRespectsFilters` at a concrete state. -/
theorem selectorRespectsFilters_witness :
    (∃ m, m ∈ filterCandidates c3S { maxCost := some 1 } ∧
      getOptimalModel c3S "analysis" { maxCost := some 1 } = m.name ∧
      (({ maxCost := some 1 } : Requirements).needsVision = some true →
        m.supports.vision = true) ∧
      (∀ c, ({ maxCost := some 1 } : Requirements).maxCost = some c →
        m.costPerToken ≤ c)) ∨
    getOptimalModel c3S "analysis" { maxCost := some 1 } = "gpt-4o-mini" :=
  selectorRespectsFilters c3S "analysis" { maxCost := some 1 }

/-- Claim C9. Selection is total and never yields the empty string: it is a
pure function returning a name for every state, task type and requirement
set, and on an empty registry it returns the concrete default
gpt-4o-mini. -/
theorem selectorTotalDefault (s : MMState) (t : String)
    (req : Requirements) :
    getOptimalModel s t req ≠ "" ∧
    (s.modelRegistry = [] → getOptimalModel s t req = "gpt-4o-mini") := by
  constructor
  · cases hpo : prefOverride s t (filterCandidates s req) with
    | some p =>
        obtain ⟨hne, -⟩ := prefOverride_props s t _ p hpo
        simpa [getOptimalModel, hpo] using hne
    | none =>
        have hred : getOptimalModel s t req
            = rankedPick t (req.preferSpeed == some true)
                (filterCandidates s req) := by
          simp [getOptimalModel, hpo]
        rw [hred]
        unfold rankedPick
        cases hh : (sortStable (modelCmp t (req.preferSpeed == some true))
            (filterCandidates s req)).head? with
        | none => simp
        | some m =>
            by_cases hname : m.name = "" <;> simp [hname]
  · intro hreg
    have hcand : filterCandidates s req = [] := by
      unfold filterCandidates
      rw [hreg]
      cases req.maxCost <;> simp
    have hpo : prefOverride s t (filterCandidates s req) = none := by
      rw [hcand]; exact prefOverride_empty s t
    have hred : getOptimalModel s t req
        = rankedPick t (req.preferSpeed == some true)
            (filterCandidates s req) := by
      simp [getOptimalModel, hpo]
    rw [hred, hcand]
    rfl

/-- Witness for `selectorTotalDefault` on the freshly constructed manager. -/
theorem selectorTotalDefault_witness :
    getOptimalModel initialMM "bug-fix" {} ≠ "" ∧
    (initialMM.modelRegistry = [] →
      getOptimalModel initialMM "bug-fix" {} = "gpt-4o-mini") :=
  selectorTotalDefault initialMM "bug-fix" {}

/-- Claim C2 (amended). With no applicable task preference and every
post-filter candidate carrying a capability tag for the task category, the
code selection coincides with the specification-side ranking: candidates
are ordered by descending ordinal strength, ties broken by ascending cost
per token when `preferSpeed` is set and by original registry order
otherwise, and the top-ranked candidate is returned. A model lacking a tag
for the category is NOT ranked below tagged models; the comparator treats
such a pair as a tie, which the counterexample below exhibits. -/
theorem rankingRefinesSpec (s : MMState) (t : String) (req : Requirements)
    (hPref : prefOverride s t (filterCandidates s req) = none)
    (hAll : ∀ m ∈ filterCandidates s req, (findCap m t).isSome = true) :
    getOptimalModel s t req
      = specRankedPick t (req.preferSpeed == some true)
          (filterCandidates s req) := by
  have hred : getOptimalModel s t req
      = rankedPick t (req.preferSpeed == some true)
          (filterCandidates s req) := by
    simp [getOptimalModel, hPref]
  rw [hred, rankedPick_eq_spec t (req.preferSpeed == some true)
    (filterCandidates s req) hAll]

/-- A model with no capability tag at all, registered first. -/
def c2A : AIModel := mkModel "a" "openai" [] 1 true

/-- A model with an excellent analysis tag, registered second. -/
def c2B : AIModel := mkModel "b" "openai" [⟨"analysis", .excellent⟩] 1 true

/-- A manager state holding `c2A` before `c2B`. -/
def c2S : MMState := addProvider initialMM ⟨"OpenAI", [c2A, c2B], okAdapter⟩

/-- Claim C2, counterexample to the literal statement: the model named a
has no tag for the category analysis while the model named b carries an
excellent tag, yet selection returns a — the comparator reports a tie
whenever either side lacks the tag, so the untagged model keeps its earlier
registry position instead of ranking below every tagged model. -/
theorem c2_counterexample :
    getOptimalModel c2S "analysis" {} = "a" ∧
    findCap c2A "analysis" = none ∧
    findCap c2B "analysis" = some ⟨"analysis", .excellent⟩ := by decide

/-- Two fully tagged models for the witness scenario: a high-strength model
registered first and an excellent-strength model registered second. -/
def c2H : AIModel := mkModel "h" "openai" [⟨"analysis", .high⟩] 2 true

/-- Excellent-strength companion to `c2H`. -/
def c2E : AIModel := mkModel "e" "openai" [⟨"analysis", .excellent⟩] 5 true

/-- A manager state whose candidates all carry an analysis tag. -/
def c2WS : MMState := addProvider initialMM ⟨"OpenAI", [c2H, c2E], okAdapter⟩

/-- Witness for `rankingRefinesSpec`: on a registry of two tagged models
with no applicable preference, both hypotheses hold by evaluation and the
selection equals the specification-side ranking. -/
theorem rankingRefinesSpec_witness :
    prefOverride c2WS "analysis" (filterCandidates c2WS {}) = none ∧
    (∀ m ∈ filterCandidates c2WS {}, (findCap m "analysis").isSome = true) ∧
    getOptimalModel c2WS "analysis" {}
      = specRankedPick "analysis"
          (({} : Requirements).preferSpeed == some true)
          (filterCandidates c2WS {}) :=
  ⟨by decide, by decide,
    rankingRefinesSpec c2WS "analysis" {} (by decide) (by decide)⟩

/-- Claim C7 (amended). A nonempty preferred name that survives the filters
is returned immediately as an override; a preferred name matching no
post-filter candidate makes selection fall through to ranked selection —
whose hardcoded default can still coincide with the preferred string, as
the counterexample below shows with the default preference of
documentation-update pointing at the unregistered name gpt-4o-mini. -/
theorem preferenceOverride (s : MMState) (t p : String) (req : Requirements)
    (hp : mapGet s.taskModelPreferences t = some p) (hne : p ≠ "") :
    ((filterCandidates s req).any (fun m => m.name == p) = true →
       getOptimalModel s t req = p) ∧
    ((filterCandidates s req).any (fun m => m.name == p) = false →
       getOptimalModel s t req
         = rankedPick t (req.preferSpeed == some true)
             (filterCandidates s req)) := by
  constructor
  · intro hany
    have hpo : prefOverride s t (filterCandidates s req) = some p := by
      unfold prefOverride
      simp only [hp]
      rw [if_pos ⟨hne, hany⟩]
    simp [getOptimalModel, hpo]
  · intro hany
    have hpo : prefOverride s t (filterCandidates s req) = none := by
      unfold prefOverride
      simp only [hp]
      rw [if_neg]
      rintro ⟨-, h2⟩
      rw [hany] at h2
      exact Bool.false_ne_true h2
    simp [getOptimalModel, hpo]

/-- Claim C7, counterexample to the literal statement: the default
preference maps documentation-update to gpt-4o-mini, no model is
registered, and selection returns exactly the nonexistent preferred name,
because ranked selection on an empty candidate list falls back to the same
hardcoded default string. -/
theorem c7_counterexample :
    mapGet initialMM.taskModelPreferences "documentation-update"
      = some "gpt-4o-mini" ∧
    mapGet initialMM.modelRegistry "gpt-4o-mini" = none ∧
    getOptimalModel initialMM "documentation-update" {} = "gpt-4o-mini" := by
  decide

/-- A registered model bearing the default preferred name for the task
analyze-issue. -/
def c7Model : AIModel :=
  mkModel "claude-3-5-sonnet-20241022" "anthropic" [] 3 true

/-- A manager state holding only `c7Model`. -/
def c7S : MMState := addProvider initialMM ⟨"Anthropic", [c7Model], okAdapter⟩

/-- Witness for `preferenceOverride`: with the preferred model registered
and surviving the empty filter set, the override branch applies. -/
theorem preferenceOverride_witness :
    ((filterCandidates c7S {}).any
        (fun m => m.name == "claude-3-5-sonnet-20241022") = true →
      getOptimalModel c7S "analyze-issue" {}
        = "claude-3-5-sonnet-20241022") ∧
    ((filterCandidates c7S {}).any
        (fun m => m.name == "claude-3-5-sonnet-20241022") = false →
      getOptimalModel c7S "analyze-issue" {}
        = rankedPick "analyze-issue"
            (({} : Requirements).preferSpeed == some true)
            (filterCandidates c7S {})) :=
  preferenceOverride c7S "analyze-issue" "claude-3-5-sonnet-20241022" {}
    (by decide) (by decide)

/-- Claim C4. Across any sequence of successful invocations of one
registered model, the usage record accumulates exactly: the call count by
the number of calls, the token count by the sum of the per-call estimates
— each a fixed characters-per-token function of prompt and response
length — and the cost by the sum of each estimate times the cost per
token of the model, with exact rational arithmetic in place of
floating-point tolerance. -/
theorem usageAccumulation (s : MMState) (n : String) (M : AIModel)
    (P : ProviderA) (st0 : UsageStat) (ps : List String)
    (hM : mapGet s.modelRegistry n = some M)
    (hP : mapGet s.providers M.provider = some P)
    (hst : mapGet s.usageStats n = some st0)
    (hok : ∀ p ∈ ps, isOkE (P.makeRequest p n) = true) :
    mapGet (runSeq s n ps).usageStats n =
      some ⟨st0.calls + ps.length,
            st0.tokens
              + (ps.map (fun p => estimateTokens p (respOf P n p))).sum,
            st0.cost
              + (ps.map (fun p =>
                  (estimateTokens p (respOf P n p) : Rat)
                    * M.costPerToken)).sum⟩ :=
  runSeq_stats n M P ps s st0 hM hP hst hok

/-- The model used in the concrete accumulation scenario, cost two per
token. -/
def c4Model : AIModel := mkModel "m4" "openai" [] 2 true

/-- Its provider, answering the fixed string done to every request. -/
def c4P : ProviderA := ⟨"openai", [c4Model], okAdapter⟩

/-- A manager state holding `c4Model` via `c4P`. -/
def c4S : MMState := addProvider initialMM c4P

/-- Witness for `usageAccumulation`: two successful calls against the model
named m4, both hypotheses discharged by evaluation. -/
theorem usageAccumulation_witness :
    mapGet (runSeq c4S "m4" ["abcd", "x"]).usageStats "m4" =
      some ⟨(⟨0, 0, 0⟩ : UsageStat).calls
              + (["abcd", "x"] : List String).length,
            (⟨0, 0, 0⟩ : UsageStat).tokens
              + ((["abcd", "x"] : List String).map
                  (fun p => estimateTokens p (respOf c4P "m4" p))).sum,
            (⟨0, 0, 0⟩ : UsageStat).cost
              + ((["abcd", "x"] : List String).map
                  (fun p => (estimateTokens p (respOf c4P "m4" p) : Rat)
                    * c4Model.costPerToken)).sum⟩ :=
  usageAccumulation c4S "m4" c4Model c4P ⟨0, 0, 0⟩ ["abcd", "x"]
    (by decide) rfl (by decide) (by decide)

/-- Claim C5. The invocation primitive fails with the model-not-found error
when the name is absent from the registry, fails with the
provider-not-configured error when the owning provider was never
registered, leaves every usage record untouched whenever any error is
produced, and increments the usage record of the invoked model exactly
when the provider call succeeds. -/
theorem invocationErrorLedger (s : MMState) (p n : String) :
    (mapGet s.modelRegistry n = none →
      executeWithModel s p n = (.error ("Model " ++ n ++ " not found"), s)) ∧
    (∀ M, mapGet s.modelRegistry n = some M →
      mapGet s.providers M.provider = none →
      executeWithModel s p n
        = (.error ("Provider " ++ M.provider ++ " not configured"), s)) ∧
    (∀ e, (executeWithModel s p n).1 = .error e →
      (executeWithModel s p n).2.usageStats = s.usageStats) ∧
    (∀ out, (executeWithModel s p n).1 = .ok out →
      ∃ st0, mapGet s.usageStats n = some st0 ∧
        mapGet (executeWithModel s p n).2.usageStats n
          = some ⟨st0.calls + 1, st0.tokens + out.tokensUsed,
                  st0.cost + out.cost⟩) := by
  refine ⟨executeWithModel_not_found s p n,
    fun M hM hP => executeWithModel_no_provider s p n M hM hP,
    fun e he => by rw [executeWithModel_error_state s p n e he],
    fun out hout => ?_⟩
  obtain ⟨M, P, r, st0, hM, hP, hr, hst, hval, hstate⟩ :=
    executeWithModel_ok_spec s p n out hout
  refine ⟨st0, hst, ?_⟩
  rw [hstate]
  simp [bumpStats, mapGet_mapSet_self]

/-- Witness for `invocationErrorLedger` at a state with no registered model
named ghost. -/
theorem invocationErrorLedger_witness :
    (mapGet initialMM.modelRegistry "ghost" = none →
      executeWithModel initialMM "hi" "ghost"
        = (.error ("Model " ++ "ghost" ++ " not found"), initialMM)) ∧
    (∀ M, mapGet initialMM.modelRegistry "ghost" = some M →
      mapGet initialMM.providers M.provider = none →
      executeWithModel initialMM "hi" "ghost"
        = (.error ("Provider " ++ M.provider ++ " not configured"),
           initialMM)) ∧
    (∀ e, (executeWithModel initialMM "hi" "ghost").1 = .error e →
      (executeWithModel initialMM "hi" "ghost").2.usageStats
        = initialMM.usageStats) ∧
    (∀ out, (executeWithModel initialMM "hi" "ghost").1 = .ok out →
      ∃ st0, mapGet initialMM.usageStats "ghost" = some st0 ∧
        mapGet (executeWithModel initialMM "hi" "ghost").2.usageStats "ghost"
          = some ⟨st0.calls + 1, st0.tokens + out.tokensUsed,
                  st0.cost + out.cost⟩) :=
  invocationErrorLedger initialMM "hi" "ghost"

/-- Claim C6 (amended). Registering a provider creates a zeroed usage
record for each of its models unconditionally, overwriting any existing
record — so re-registering a provider resets the counters of its models
to zero, and the never-decrease reading fails, as the counterexample
shows. What does hold: after `addProvider` every model of the provider has
an all-zero usage record, and the invariant that a usage record exists for
every registered model is preserved by both `addProvider` and
`executeWithModel`. -/
theorem addProviderResetsStats (s : MMState) (p : ProviderA) :
    (∀ m ∈ p.models,
      mapGet (addProvider s p).usageStats m.name = some ⟨0, 0, 0⟩) ∧
    (statsCover s → statsCover (addProvider s p)) ∧
    (∀ prompt n, statsCover s →
      statsCover (executeWithModel s prompt n).2) := by
  refine ⟨?_, statsCover_addProvider s p,
    fun prompt n h => statsCover_executeWithModel s prompt n h⟩
  intro m hm
  have hconst := foldl_setConst_get (⟨0, 0, 0⟩ : UsageStat) p.models
    s.usageStats m.name
  have hany : p.models.any (fun x => x.name == m.name) = true :=
    List.any_eq_true.mpr ⟨m, hm, by simp⟩
  simpa [addProvider, hany] using hconst

/-- The model of the reset scenario, cost one per token. -/
def c6Model : AIModel := mkModel "m6" "openai" [] 1 true

/-- Its provider. -/
def c6P : ProviderA := ⟨"openai", [c6Model], okAdapter⟩

/-- State after registering `c6P` once. -/
def c6S1 : MMState := addProvider initialMM c6P

/-- State after one successful call against the model named m6. -/
def c6S2 : MMState := (executeWithModel c6S1 "abcd" "m6").2

/-- Claim C6, counterexample to the literal statement: after one successful
call the usage record of m6 reads one call, two tokens, cost two; yet
re-registering the same provider resets the record to all-zero even though
a record already existed — the counters decrease and the
create-only-if-absent reading is false. -/
theorem c6_counterexample :
    mapGet c6S2.usageStats "m6" = some ⟨1, 2, 2⟩ ∧
    mapGet (addProvider c6S2 c6P).usageStats "m6" = some ⟨0, 0, 0⟩ := by
  constructor
  · have hM : mapGet c6S1.modelRegistry "m6" = some c6Model := by decide
    have hP : mapGet c6S1.providers c6Model.provider = some c6P := rfl
    have hr : c6P.makeRequest "abcd" "m6" = .ok "done" := rfl
    have hst : mapGet c6S1.usageStats "m6" = some ⟨0, 0, 0⟩ := by decide
    have htok : estimateTokens "abcd" "done" = 2 := by decide
    show mapGet (executeWithModel c6S1 "abcd" "m6").2.usageStats "m6" = _
    simp only [executeWithModel, hM, hP, hr, hst, htok]
    rw [mapGet_mapSet_self]
    norm_num [c6Model, mkModel]
  · have hconst := foldl_setConst_get (⟨0, 0, 0⟩ : UsageStat) c6P.models
      c6S2.usageStats "m6"
    have hany : c6P.models.any (fun x => x.name == "m6") = true := by decide
    simpa [addProvider, hany] using hconst

/-- Witness for `addProviderResetsStats` on the fresh manager state. -/
theorem addProviderResetsStats_witness :
    (∀ m ∈ c6P.models,
      mapGet (addProvider initialMM c6P).usageStats m.name
        = some ⟨0, 0, 0⟩) ∧
    (statsCover initialMM → statsCover (addProvider initialMM c6P)) ∧
    (∀ prompt n, statsCover initialMM →
      statsCover (executeWithModel initialMM prompt n).2) :=
  addProviderResetsStats initialMM c6P

/-- Claim C10. A successful invocation reports exactly the requested model
name in its outcome, and the tokens and cost fields of the outcome are
exactly the amounts added to the usage record of that model by the same
call. -/
theorem outcomeMatchesLedger (s : MMState) (p n : String)
    (out : ExecOutcome) (h : (executeWithModel s p n).1 = .ok out) :
    out.model = n ∧
    ∃ st0, mapGet s.usageStats n = some st0 ∧
      mapGet (executeWithModel s p n).2.usageStats n
        = some ⟨st0.calls + 1, st0.tokens + out.tokensUsed,
                st0.cost + out.cost⟩ := by
  obtain ⟨M, P, r, st0, hM, hP, hr, hst, hval, hstate⟩ :=
    executeWithModel_ok_spec s p n out h
  refine ⟨by rw [hval], st0, hst, ?_⟩
  rw [hstate]
  simp [bumpStats, mapGet_mapSet_self]

/-- Witness for `outcomeMatchesLedger`: a concrete successful call against
the model named m4; the outcome value is spelled with the same symbolic
token and cost expressions the code produces. -/
theorem outcomeMatchesLedger_witness :
    (⟨"done", "m4", estimateTokens "abcd" "done",
      (estimateTokens "abcd" "done" : Rat) * c4Model.costPerToken⟩
        : ExecOutcome).model = "m4" ∧
    ∃ st0, mapGet c4S.usageStats "m4" = some st0 ∧
      mapGet (executeWithModel c4S "abcd" "m4").2.usageStats "m4"
        = some ⟨st0.calls + 1,
                st0.tokens + (⟨"done", "m4", estimateTokens "abcd" "done",
                  (estimateTokens "abcd" "done" : Rat)
                    * c4Model.costPerToken⟩ : ExecOutcome).tokensUsed,
                st0.cost + (⟨"done", "m4", estimateTokens "abcd" "done",
                  (estimateTokens "abcd" "done" : Rat)
                    * c4Model.costPerToken⟩ : ExecOutcome).cost⟩ :=
  outcomeMatchesLedger c4S "abcd" "m4"
    ⟨"done", "m4", estimateTokens "abcd" "done",
      (estimateTokens "abcd" "done" : Rat) * c4Model.costPerToken⟩ rfl

/-- Claim C1 (amended). Fallback applies only to thrown exceptions: when
the dispatched task invocation throws, a configured nonempty fallback
model differing from the selected model triggers exactly one retry of the
whole invocation with the fallback substituted into the parameters; a
successful retry returns the retry result unchanged (which reports the
fallback as the model used whenever the task records its selected model),
and a second thrown exception yields a terminal failure whose message says
both models were tried, with no further retries. A task invocation that
merely returns a failure result is passed through unchanged and triggers
no fallback, as the counterexample shows. -/
theorem fallbackRetryOnException (tm : TMState) (taskName : String)
    (params : Option TaskParams) (task : CCTask) (fb e : String)
    (htask : mapGet tm.tasks taskName = some task)
    (hfb : tm.context.modelSelection.fallback = some fb)
    (hfbne : fb ≠ "")
    (hdiff : selectModelFor tm taskName task params ≠ fb)
    (hfail : task.execute (ctxWithSel tm.context params
      (selectModelFor tm taskName task params)) = .error e) :
    (∀ r, task.execute (ctxWithSel tm.context params fb) = .ok r →
      executeTaskWithOptimalModel tm taskName params = .ok r) ∧
    (∀ e2, task.execute (ctxWithSel tm.context params fb) = .error e2 →
      executeTaskWithOptimalModel tm taskName params
        = .ok { success := false, message := bothFailedMsg e }) := by
  constructor
  · intro r hr
    simp [executeTaskWithOptimalModel, htask, hfail, hfb, hr, hfbne, hdiff]
  · intro e2 he2
    simp [executeTaskWithOptimalModel, htask, hfail, hfb, he2, hfbne, hdiff]

/-- A task that returns a failure result (without throwing) on the primary
model and succeeds on any other model, reporting the model it used. -/
def c1Task : CCTask :=
  { name := "t"
    category := "analysis"
    execute := fun ctx =>
      match ctx.additionalParams with
      | some ap =>
          match ap.selectedModel with
          | some m =>
              if m = "primary"
                then .ok { success := false, message := "primary failed" }
                else .ok { success := true, message := "ok",
                           modelUsed := some m }
          | none => .ok { success := false, message := "no model" }
      | none => .ok { success := false, message := "no params" } }

/-- A context with primary model primary and fallback fb. -/
def c1Ctx : TaskContext :=
  { repository := "r"
    owner := "o"
    githubToken := "g"
    workingDirectory := "w"
    modelSelection := { primary := "primary", fallback := some "fb" } }

/-- Task manager holding only `c1Task`. -/
def c1TM : TMState :=
  { tasks := [("t", c1Task)], context := c1Ctx, mm := initialMM }

/-- Claim C1, counterexample to the literal statement: the task returns a
failure result on the primary model while a distinct configured fallback
would succeed and report itself as the model used, yet
`executeTaskWithOptimalModel` returns the primary failure untouched — a
returned failure triggers no fallback retry, only a thrown exception
does. -/
theorem c1_counterexample :
    executeTaskWithOptimalModel c1TM "t" (some { model := some "primary" })
      = .ok { success := false, message := "primary failed" } ∧
    c1Task.execute (ctxWithSel c1Ctx (some { model := some "primary" }) "fb")
      = .ok { success := true, message := "ok", modelUsed := some "fb" } := by
  constructor <;> rfl

/-- A task that throws on the primary model and succeeds on any other
model, reporting the model it used. -/
def c1wTask : CCTask :=
  { name := "t"
    category := "analysis"
    execute := fun ctx =>
      match ctx.additionalParams with
      | some ap =>
          match ap.selectedModel with
          | some m =>
              if m = "primary"
                then .error "boom"
                else .ok { success := true, message := "ok",
                           modelUsed := some m }
          | none => .error "no model"
      | none => .error "no params" }

/-- Task manager holding only `c1wTask`. -/
def c1wTM : TMState :=
  { tasks := [("t", c1wTask)], context := c1Ctx, mm := initialMM }

/-- Witness for `fallbackRetryOnException`: the task throws on primary and
the retry with the fallback fb succeeds reporting fb as model used. -/
theorem fallbackRetryOnException_witness :
    (∀ r, c1wTask.execute
        (ctxWithSel c1wTM.context (some { model := some "primary" }) "fb")
          = .ok r →
      executeTaskWithOptimalModel c1wTM "t"
        (some { model := some "primary" }) = .ok r) ∧
    (∀ e2, c1wTask.execute
        (ctxWithSel c1wTM.context (some { model := some "primary" }) "fb")
          = .error e2 →
      executeTaskWithOptimalModel c1wTM "t"
        (some { model := some "primary" })
        = .ok { success := false, message := bothFailedMsg "boom" }) :=
  fallbackRetryOnException c1wTM "t" (some { model := some "primary" })
    c1wTask "fb" "boom" rfl rfl (by decide) (by decide) rfl

/-- Claim C8. An unknown task name yields the distinct task-not-found
failure result from both entry points with nothing invoked; every thrown
error is caught and normalized into a `success := false` result carrying
the human-readable message built from the error — `executeTask` returns
the single-failure message, and `executeTaskWithOptimalModel` returns the
single-failure message when no distinct nonempty fallback applies and the
both-models message when the fallback retry throws as well; on top of
that, both entry points are total: they always return an `ok` result, so
no exception crosses the executor boundary. -/
theorem executorNormalizesFailures (tm : TMState) (taskName : String)
    (params : Option TaskParams) :
    (mapGet tm.tasks taskName = none →
      executeTask tm taskName params
        = .ok { success := false, message := taskNotFoundMsg taskName } ∧
      executeTaskWithOptimalModel tm taskName params
        = .ok { success := false, message := taskNotFoundMsg taskName }) ∧
    (∀ task e, mapGet tm.tasks taskName = some task →
      task.execute { tm.context with
          additionalParams := some ⟨params.getD {}, none⟩ } = .error e →
      executeTask tm taskName params
        = .ok { success := false, message := execFailedMsg e }) ∧
    (∀ task e, mapGet tm.tasks taskName = some task →
      task.execute (ctxWithSel tm.context params
        (selectModelFor tm taskName task params)) = .error e →
      ((∀ fb, tm.context.modelSelection.fallback = some fb →
          fb = "" ∨ selectModelFor tm taskName task params = fb) →
        executeTaskWithOptimalModel tm taskName params
          = .ok { success := false, message := execFailedMsg e }) ∧
      (∀ fb e2, tm.context.modelSelection.fallback = some fb → fb ≠ "" →
        selectModelFor tm taskName task params ≠ fb →
        task.execute (ctxWithSel tm.context params fb) = .error e2 →
        executeTaskWithOptimalModel tm taskName params
          = .ok { success := false, message := bothFailedMsg e })) ∧
    (∃ r, executeTask tm taskName params = .ok r) ∧
    (∃ r, executeTaskWithOptimalModel tm taskName params = .ok r) := by
  refine ⟨fun hnone => ⟨by simp [executeTask, hnone],
    by simp [executeTaskWithOptimalModel, hnone]⟩, ?_, ?_, ?_, ?_⟩
  · intro task e htask hex
    simp [executeTask, htask, hex]
  · intro task e htask hex
    constructor
    · intro hno
      cases hfb : tm.context.modelSelection.fallback with
      | none => simp [executeTaskWithOptimalModel, htask, hex, hfb]
      | some fb =>
          have hcond : ¬(fb ≠ "" ∧
              selectModelFor tm taskName task params ≠ fb) := by
            rcases hno fb hfb with h | h
            · exact fun hc => hc.1 h
            · exact fun hc => hc.2 h
          simp [executeTaskWithOptimalModel, htask, hex, hfb, hcond]
    · intro fb e2 hfb hne hdiff hex2
      simp [executeTaskWithOptimalModel, htask, hex, hfb, hne, hdiff, hex2]
  · cases htask : mapGet tm.tasks taskName with
    | none =>
        exact ⟨{ success := false, message := taskNotFoundMsg taskName },
          by simp [executeTask, htask]⟩
    | some task =>
        cases hex : task.execute { tm.context with
            additionalParams := some ⟨params.getD {}, none⟩ } with
        | ok r => exact ⟨r, by simp [executeTask, htask, hex]⟩
        | error e =>
            exact ⟨{ success := false, message := execFailedMsg e },
              by simp [executeTask, htask, hex]⟩
  · cases htask : mapGet tm.tasks taskName with
    | none =>
        exact ⟨{ success := false, message := taskNotFoundMsg taskName },
          by simp [executeTaskWithOptimalModel, htask]⟩
    | some task =>
        cases hex : task.execute (ctxWithSel tm.context params
            (selectModelFor tm taskName task params)) with
        | ok r =>
            exact ⟨r, by simp [executeTaskWithOptimalModel, htask, hex]⟩
        | error e =>
            cases hfb : tm.context.modelSelection.fallback with
            | none =>
                exact ⟨{ success := false, message := execFailedMsg e },
                  by simp [executeTaskWithOptimalModel, htask, hex, hfb]⟩
            | some fb =>
                by_cases hcond : fb ≠ "" ∧
                    selectModelFor tm taskName task params ≠ fb
                · cases hex2 : task.execute (ctxWithSel tm.context params fb)
                      with
                  | ok r2 =>
                      exact ⟨r2, by
                        simp [executeTaskWithOptimalModel, htask, hex, hfb,
                          hcond, hex2]⟩
                  | error e2 =>
                      refine ⟨{ success := false, message := bothFailedMsg e }, ?_⟩
                      simp [executeTaskWithOptimalModel, htask, hex, hfb,
                        hcond, hex2]
                · exact ⟨{ success := false, message := execFailedMsg e },
                    by simp [executeTaskWithOptimalModel, htask, hex, hfb,
                      hcond]⟩

/-- Witness for `executorNormalizesFailures` at a concrete state whose
registered task really throws on the primary model, so the normalization
conjuncts apply with satisfiable hypotheses. -/
theorem executorNormalizesFailures_witness :
    (mapGet c1wTM.tasks "t" = none →
      executeTask c1wTM "t" (some { model := some "primary" })
        = .ok { success := false, message := taskNotFoundMsg "t" } ∧
      executeTaskWithOptimalModel c1wTM "t" (some { model := some "primary" })
        = .ok { success := false, message := taskNotFoundMsg "t" }) ∧
    (∀ task e, mapGet c1wTM.tasks "t" = some task →
      task.execute { c1wTM.context with
          additionalParams :=
            some ⟨(some { model := some "primary" }
              : Option TaskParams).getD {}, none⟩ } = .error e →
      executeTask c1wTM "t" (some { model := some "primary" })
        = .ok { success := false, message := execFailedMsg e }) ∧
    (∀ task e, mapGet c1wTM.tasks "t" = some task →
      task.execute (ctxWithSel c1wTM.context (some { model := some "primary" })
        (selectModelFor c1wTM "t" task (some { model := some "primary" })))
          = .error e →
      ((∀ fb, c1wTM.context.modelSelection.fallback = some fb →
          fb = "" ∨ selectModelFor c1wTM "t" task
            (some { model := some "primary" }) = fb) →
        executeTaskWithOptimalModel c1wTM "t"
          (some { model := some "primary" })
          = .ok { success := false, message := execFailedMsg e }) ∧
      (∀ fb e2, c1wTM.context.modelSelection.fallback = some fb → fb ≠ "" →
        selectModelFor c1wTM "t" task (some { model := some "primary" }) ≠ fb →
        task.execute (ctxWithSel c1wTM.context
          (some { model := some "primary" }) fb) = .error e2 →
        executeTaskWithOptimalModel c1wTM "t"
          (some { model := some "primary" })
          = .ok { success := false, message := bothFailedMsg e })) ∧
    (∃ r, executeTask c1wTM "t" (some { model := some "primary" }) = .ok r) ∧
    (∃ r, executeTaskWithOptimalModel c1wTM "t"
      (some { model := some "primary" }) = .ok r) :=
  executorNormalizesFailures c1wTM "t" (some { model := some "primary" })

end GIR
